import Mathlib

/-!
Shallow embedding of the sequential Bayesian updater of
`src/10_bayes/prior_posterior_distribution_example.ipynb`.

The notebook works with numpy arrays of floats sampled on a grid
(`ecs_values = np.linspace(0, 10, 1000)`); here densities and grids are
`List ℚ` and the arithmetic is exact.  The numerical kernels are
translated directly from the notebook's code cells:

* `np.trapezoid(y, x)`                       → `trapezoid`
* `p = a * b; p /= np.trapezoid(p, x)`       → `update` / `normalize`
* `np.cumsum(d) * np.diff(x).mean()`         → `cumulative`
* `np.searchsorted(a, v)` (side left)        → `searchsorted`
* `x[np.searchsorted(c, q)]`                 → `List.get?` of `searchsorted`
* tail probability via slice from
  `np.searchsorted(x, threshold)`            → `tailProbAbove`

The error/warning wrappers (`DegenerateDensityError`, `ShapeMismatchError`,
`OutOfRangeError`, `ThresholdOutOfRangeWarning`) and the `run` driver are
not named functions in the notebook; they are modelled from the design
spec, as noted on each definition.
-/

namespace SeqBayes

/-- Error kinds of the updater: modelled from the spec's §7 error model
(degenerate density, shape mismatch, invalid tail arguments). -/
inductive BayesError where
  | degenerateDensity : BayesError
  | shapeMismatch : BayesError
  | outOfRange : BayesError
deriving DecidableEq, Repr

/-- Trapezoidal integral, `np.trapezoid(y, x)`:
`Σᵢ (x[i+1] - x[i]) * (y[i] + y[i+1]) / 2`. -/
def trapezoid : List ℚ → List ℚ → ℚ
  | y0 :: y1 :: ys, x0 :: x1 :: xs =>
      (x1 - x0) * (y0 + y1) / 2 + trapezoid (y1 :: ys) (x1 :: xs)
  | _, _ => 0

/-- Division of every element of a density by the trapezoidal integral
(`posterior /= np.trapezoid(posterior, ecs_values)` in the notebook).
The guard is modelled from the spec: a zero or negative integral raises
`DegenerateDensityError` (non-finite values do not arise over ℚ). -/
def normalize (density grid : List ℚ) : Except BayesError (List ℚ) :=
  if trapezoid density grid ≤ 0 then .error .degenerateDensity
  else .ok (density.map (fun v => v / trapezoid density grid))

/-- One Bayes step: elementwise product followed by `normalize`
(`posterior_1 = prior_pdf * volcanic_pdf` then renormalization).
The length check is modelled from the spec's `ShapeMismatchError`. -/
def update (cur lik grid : List ℚ) : Except BayesError (List ℚ) :=
  if cur.length = lik.length ∧ cur.length = grid.length then
    normalize (List.zipWith (· * ·) cur lik) grid
  else .error .shapeMismatch

/-- Folds `update` over the likelihoods, collecting one posterior per
likelihood (the notebook's `posterior_1 … final_posterior` chain). -/
def runAux (grid cur : List ℚ) : List (List ℚ) → Except BayesError (List (List ℚ))
  | [] => .ok []
  | lik :: liks =>
      match update cur lik grid with
      | .error e => .error e
      | .ok next =>
          match runAux grid next liks with
          | .error e => .error e
          | .ok rest => .ok (next :: rest)

/-- Modelled from the spec: the `run` driver is not a named function in the
notebook (the chain is written out cell by cell).  It normalizes the prior,
folds `update` over the likelihoods in order, and returns one posterior per
likelihood — except that an empty likelihood list returns just the
normalized prior as the sole element. -/
def run (prior : List ℚ) (liks : List (List ℚ)) (grid : List ℚ) :
    Except BayesError (List (List ℚ)) :=
  match normalize prior grid with
  | .error e => .error e
  | .ok p0 =>
      match liks with
      | [] => .ok [p0]
      | _ :: _ => runAux grid p0 liks

/-- Average grid spacing, `np.diff(x).mean()`. -/
def avgDiff (xs : List ℚ) : ℚ :=
  (List.zipWith (· - ·) xs.tail xs).sum / ((xs.length - 1 : ℕ) : ℚ)

/-- Running sums with accumulator, used for `np.cumsum`. -/
def cumsumFrom (acc : ℚ) : List ℚ → List ℚ
  | [] => []
  | a :: as => (acc + a) :: cumsumFrom (acc + a) as

/-- `np.cumsum(d)`. -/
def cumsum (l : List ℚ) : List ℚ := cumsumFrom 0 l

/-- The notebook's scaled cumulative mass:
`cumulative = np.cumsum(final_posterior) * np.diff(ecs_values).mean()`. -/
def cumulative (density grid : List ℚ) : List ℚ :=
  (cumsum density).map (fun v => v * avgDiff grid)

/-- `np.searchsorted(a, v)` with the default left side: the first index `i`
with `v ≤ a[i]`, or the length when no element qualifies. -/
def searchsorted : List ℚ → ℚ → ℕ
  | [], _ => 0
  | a :: as, v => if v ≤ a then 0 else searchsorted as v + 1

/-- The notebook's tail probability:
`i = np.searchsorted(ecs_values, threshold)` then
`np.trapezoid(density[i:], ecs_values[i:])`. -/
def tailProbAbove (density grid : List ℚ) (threshold : ℚ) : ℚ :=
  trapezoid (density.drop (searchsorted grid threshold))
    (grid.drop (searchsorted grid threshold))

/-- First grid point (the grid's minimum, grids being increasing). -/
def gridMin (grid : List ℚ) : ℚ := grid.headD 0

/-- Last grid point (the grid's maximum, grids being increasing). -/
def gridMax (grid : List ℚ) : ℚ := grid.getLastD 0

/-- Modelled from the spec: `tailProbability` pairs the notebook's
searchsorted/trapezoid computation with the spec's non-fatal
`ThresholdOutOfRangeWarning` flag, signalled when the threshold lies
outside the grid's range. -/
def tailProbability (density grid : List ℚ) (threshold : ℚ) : ℚ × Bool :=
  (tailProbAbove density grid threshold,
   decide (threshold < gridMin grid) || decide (gridMax grid < threshold))

/-- Modelled from the spec: `credibleInterval` is written inline in the
notebook (`lower_25 = ecs_values[np.searchsorted(cumulative, 0.025)]`, and
likewise for `0.975`); the argument check is the spec's `OutOfRangeError`.
An out-of-bounds lookup (cumulative mass never reaching the tail value)
yields `none`, matching numpy's IndexError. -/
def credibleInterval (density grid : List ℚ) (lowerTail upperTail : ℚ) :
    Except BayesError (Option ℚ × Option ℚ) :=
  if 0 ≤ lowerTail ∧ upperTail ≤ 1 ∧ lowerTail < upperTail then
    .ok (grid.get? (searchsorted (cumulative density grid) lowerTail),
         grid.get? (searchsorted (cumulative density grid) upperTail))
  else .error .outOfRange

/-! ### Helper lemmas about the numerical kernels -/

theorem trapezoid_nil_right : ∀ y : List ℚ, trapezoid y [] = 0 := by
  intro y
  cases y with
  | nil => rfl
  | cons y0 ys => cases ys <;> rfl

theorem trapezoid_map_div (c : ℚ) :
    ∀ y x : List ℚ, trapezoid (y.map (fun v => v / c)) x = trapezoid y x / c := by
  intro y
  induction y with
  | nil => intro x; simp [trapezoid]
  | cons y0 ys ih =>
    cases ys with
    | nil =>
      intro x
      cases x with
      | nil => simp [trapezoid]
      | cons x0 xs => cases xs <;> simp [trapezoid]
    | cons y1 ys2 =>
      intro x
      cases x with
      | nil => simp [trapezoid]
      | cons x0 xs =>
        cases xs with
        | nil => simp [trapezoid]
        | cons x1 xs2 =>
          have h := ih (x1 :: xs2)
          simp only [List.map_cons] at h ⊢
          rw [trapezoid, trapezoid, h]
          ring

theorem zipWith_mul_map_div_left (c : ℚ) :
    ∀ A B : List ℚ,
      List.zipWith (· * ·) (A.map (fun v => v / c)) B =
        (List.zipWith (· * ·) A B).map (fun v => v / c) := by
  intro A
  induction A with
  | nil => intro B; simp
  | cons a as ih =>
    intro B
    cases B with
    | nil => simp
    | cons b bs =>
      simp only [List.map_cons, List.zipWith_cons_cons]
      rw [ih bs]
      congr 1
      exact div_mul_eq_mul_div a c b

theorem map_div_div (a b : ℚ) (l : List ℚ) :
    (l.map (fun v => v / a)).map (fun v => v / b) = l.map (fun v => v / (a * b)) := by
  rw [List.map_map]
  congr 1
  funext v
  show v / a / b = v / (a * b)
  exact div_div v a b

theorem zipWith_mul_right_comm :
    ∀ p A B : List ℚ,
      List.zipWith (· * ·) (List.zipWith (· * ·) p A) B =
        List.zipWith (· * ·) (List.zipWith (· * ·) p B) A := by
  intro p
  induction p with
  | nil => intro A B; simp
  | cons x xs ih =>
    intro A B
    cases A with
    | nil => simp
    | cons a as =>
      cases B with
      | nil => simp
      | cons b bs =>
        simp only [List.zipWith_cons_cons]
        rw [ih as bs]
        congr 1
        exact mul_right_comm x a b

theorem zipWith_mul_nonneg :
    ∀ A B : List ℚ, (∀ a ∈ A, 0 ≤ a) → (∀ b ∈ B, 0 ≤ b) →
      ∀ v ∈ List.zipWith (· * ·) A B, 0 ≤ v := by
  intro A
  induction A with
  | nil => intro B _ _ v hv; simp at hv
  | cons a as ih =>
    intro B hA hB v hv
    cases B with
    | nil => simp at hv
    | cons b bs =>
      simp only [List.zipWith_cons_cons, List.mem_cons] at hv
      rcases hv with rfl | hv
      · exact mul_nonneg (hA a (List.mem_cons_self a as)) (hB b (List.mem_cons_self b bs))
      · exact ih bs (fun x hx => hA x (List.mem_cons_of_mem a hx))
          (fun x hx => hB x (List.mem_cons_of_mem b hx)) v hv

theorem normalize_ok (density grid : List ℚ) (h : 0 < trapezoid density grid) :
    normalize density grid =
      .ok (density.map (fun v => v / trapezoid density grid)) := by
  rw [normalize, if_neg (not_le.mpr h)]

theorem trapezoid_normalized (density grid : List ℚ)
    (h : 0 < trapezoid density grid) :
    trapezoid (density.map (fun v => v / trapezoid density grid)) grid = 1 := by
  rw [trapezoid_map_div]
  exact div_self (ne_of_gt h)

theorem update_ok (cur lik grid : List ℚ)
    (h1 : cur.length = lik.length) (h2 : cur.length = grid.length)
    (hpos : 0 < trapezoid (List.zipWith (· * ·) cur lik) grid) :
    update cur lik grid =
      .ok ((List.zipWith (· * ·) cur lik).map
        (fun v => v / trapezoid (List.zipWith (· * ·) cur lik) grid)) := by
  rw [update, if_pos ⟨h1, h2⟩]
  exact normalize_ok _ _ hpos

theorem searchsorted_eq_length :
    ∀ (l : List ℚ) (v : ℚ), (∀ a ∈ l, a < v) → searchsorted l v = l.length := by
  intro l
  induction l with
  | nil => intro v _; rfl
  | cons a as ih =>
    intro v h
    have ha : a < v := h a (List.mem_cons_self a as)
    rw [searchsorted, if_neg (not_le.mpr ha),
      ih v (fun x hx => h x (List.mem_cons_of_mem a hx))]
    simp

theorem searchsorted_eq_index :
    ∀ (l : List ℚ) (v : ℚ) (i : ℕ) (hi : i < l.length),
      (∀ j, j < i → ∀ (hj : j < l.length), l[j] < v) → v ≤ l[i] →
      searchsorted l v = i := by
  intro l
  induction l with
  | nil => intro v i hi _ _; simp at hi
  | cons a as ih =>
    intro v i hi hlt hge
    cases i with
    | zero =>
      have hva : v ≤ a := by simpa using hge
      rw [searchsorted, if_pos hva]
    | succ n =>
      have ha : a < v := by simpa using hlt 0 (Nat.succ_pos n) (by simp)
      have hn : n < as.length := by
        simp only [List.length_cons] at hi
        omega
      have hrec : searchsorted as v = n := by
        refine ih v n hn (fun j hj hjl => ?_) ?_
        · have := hlt (j + 1) (Nat.succ_lt_succ hj) (by simpa using Nat.succ_lt_succ hjl)
          simpa using this
        · simpa using hge
      rw [searchsorted, if_neg (not_le.mpr ha), hrec]

theorem cumsumFrom_length :
    ∀ (l : List ℚ) (acc : ℚ), (cumsumFrom acc l).length = l.length := by
  intro l
  induction l with
  | nil => intro acc; rfl
  | cons a as ih => intro acc; simp [cumsumFrom, ih]

theorem cumulative_length (density grid : List ℚ) :
    (cumulative density grid).length = density.length := by
  simp [cumulative, cumsum, cumsumFrom_length]

theorem mem_lt_of_getLastD_lt :
    ∀ (G : List ℚ) (d t : ℚ), List.Chain' (· < ·) G → G.getLastD d < t →
      ∀ a ∈ G, a < t := by
  intro G
  induction G with
  | nil => intro d t _ _ a ha; simp at ha
  | cons g gs ih =>
    intro d t hc hlt a ha
    rw [List.getLastD_cons] at hlt
    rcases List.mem_cons.mp ha with rfl | hmem
    · cases gs with
      | nil => simpa [List.getLastD] using hlt
      | cons g2 gs2 =>
        have hg : a < g2 := (List.chain'_cons.mp hc).1
        have hg2 : g2 < t :=
          ih a t (List.chain'_cons.mp hc).2 hlt g2 (List.mem_cons_self _ _)
        exact lt_trans hg hg2
    · exact ih g t hc.tail hlt a hmem

/-! ### Claim theorems -/

/-- C1: for every non-negative density with a positive trapezoidal integral
over the grid, `normalize` succeeds and the returned density has trapezoidal
integral exactly 1 over the grid — in particular within the claimed 1e-6
relative tolerance. -/
theorem normalize_integrates_to_one (D G : List ℚ)
    (_hnn : ∀ d ∈ D, 0 ≤ d) (hpos : 0 < trapezoid D G) :
    ∃ P, normalize D G = .ok P ∧ trapezoid P G = 1 ∧
      |trapezoid P G - 1| ≤ 1 / 1000000 := by
  refine ⟨_, normalize_ok D G hpos, trapezoid_normalized D G hpos, ?_⟩
  rw [trapezoid_normalized D G hpos]
  norm_num

theorem normalize_integrates_to_one_witness :
    ∃ P, normalize [1, 1] [0, 1] = .ok P ∧ trapezoid P [0, 1] = 1 ∧
      |trapezoid P [0, 1] - 1| ≤ 1 / 1000000 :=
  normalize_integrates_to_one [1, 1] [0, 1] (by norm_num) (by norm_num [trapezoid])

/-- C8: `normalize` is idempotent — normalizing a non-negative density with
positive integral once more returns it unchanged. -/
theorem normalize_idempotent (D G : List ℚ)
    (_hnn : ∀ d ∈ D, 0 ≤ d) (hpos : 0 < trapezoid D G) :
    ∃ P, normalize D G = .ok P ∧ normalize P G = .ok P := by
  refine ⟨_, normalize_ok D G hpos, ?_⟩
  have h1 : trapezoid (D.map (fun v => v / trapezoid D G)) G = 1 :=
    trapezoid_normalized D G hpos
  rw [normalize, h1, if_neg (by norm_num : ¬(1 : ℚ) ≤ 0)]
  simp

theorem normalize_idempotent_witness :
    ∃ P, normalize [1, 1] [0, 1] = .ok P ∧ normalize P [0, 1] = .ok P :=
  normalize_idempotent [1, 1] [0, 1] (by norm_num) (by norm_num [trapezoid])

/-- C5: `normalize` fails with `DegenerateDensityError` exactly when the
trapezoidal integral is zero or negative (non-finite values cannot arise in
exact arithmetic); the error propagates through `run` to the caller and no
density is returned. -/
theorem normalize_degenerate_iff (D G : List ℚ) :
    (normalize D G = .error .degenerateDensity ↔ trapezoid D G ≤ 0) ∧
    (∀ liks, trapezoid D G ≤ 0 → run D liks G = .error .degenerateDensity) := by
  constructor
  · by_cases h : trapezoid D G ≤ 0
    · simp [normalize, h]
    · simp [normalize, h]
  · intro liks h
    rw [run, normalize, if_pos h]

theorem normalize_degenerate_iff_witness :
    normalize [0, 0] [0, 1] = .error .degenerateDensity ∧
    run [0, 0] [[1, 1]] [0, 1] = .error .degenerateDensity :=
  ⟨(normalize_degenerate_iff [0, 0] [0, 1]).1.mpr (by norm_num [trapezoid]),
   (normalize_degenerate_iff [0, 0] [0, 1]).2 [[1, 1]] (by norm_num [trapezoid])⟩

/-- C3: an `update` of two non-negative equal-length densities that returns a
density returns one that is non-negative at every grid point and has
trapezoidal integral 1 over the grid. -/
theorem update_nonneg_integral_one (A B G P : List ℚ)
    (hA : ∀ a ∈ A, 0 ≤ a) (hB : ∀ b ∈ B, 0 ≤ b)
    (hok : update A B G = .ok P) :
    (∀ p ∈ P, 0 ≤ p) ∧ trapezoid P G = 1 := by
  rw [update] at hok
  split at hok
  · rw [normalize] at hok
    split at hok
    · simp at hok
    · next hI =>
      have hpos : 0 < trapezoid (List.zipWith (· * ·) A B) G := lt_of_not_le hI
      have hP : ((List.zipWith (· * ·) A B).map
          (fun v => v / trapezoid (List.zipWith (· * ·) A B) G)) = P := by
        injection hok
      subst hP
      refine ⟨?_, trapezoid_normalized _ _ hpos⟩
      intro p hp
      obtain ⟨q, hq, rfl⟩ := List.mem_map.mp hp
      exact div_nonneg (zipWith_mul_nonneg A B hA hB q hq) (le_of_lt hpos)
  · simp at hok

theorem update_nonneg_integral_one_witness :
    (∀ p ∈ [(1 : ℚ), 1], 0 ≤ p) ∧ trapezoid [(1 : ℚ), 1] [0, 1] = 1 :=
  update_nonneg_integral_one [1, 1] [1, 1] [0, 1] [1, 1]
    (by norm_num) (by norm_num)
    (by norm_num [update, normalize, trapezoid, List.zipWith])

/-- C2: `run` starts from the normalized prior and folds `update` over the
likelihoods in order: with no likelihoods it returns exactly the one-element
sequence holding the normalized prior, with a single likelihood it returns
exactly the one-element sequence holding the direct `update` of the
normalized prior, and on a non-empty list it is the fold `runAux` from the
normalized prior. -/
theorem run_fold_spec (prior grid L p0 : List ℚ)
    (h0 : normalize prior grid = .ok p0) :
    run prior [] grid = .ok [p0] ∧
    run prior [L] grid = (update p0 L grid).map (fun p1 => [p1]) ∧
    ∀ liks, liks ≠ [] → run prior liks grid = runAux grid p0 liks := by
  refine ⟨?_, ?_, ?_⟩
  · rw [run, h0]
  · rw [run, h0]
    show runAux grid p0 [L] = _
    rw [runAux]
    cases hu : update p0 L grid with
    | error e => rfl
    | ok q => rfl
  · intro liks hne
    rw [run, h0]
    cases liks with
    | nil => exact absurd rfl hne
    | cons l ls => rfl

theorem run_fold_spec_witness :
    run [1, 1] [] [0, 1] = .ok [[1, 1]] ∧
    run [1, 1] [[1, 1]] [0, 1] = (update [1, 1] [1, 1] [0, 1]).map (fun p1 => [p1]) := by
  have h := run_fold_spec [1, 1] [0, 1] [1, 1] [1, 1]
    (by norm_num [normalize, trapezoid])
  exact ⟨h.1, h.2.1⟩

theorem runAux_cons (G cur lik : List ℚ) (liks : List (List ℚ))
    (q : List ℚ) (rest : List (List ℚ))
    (hu : update cur lik G = .ok q) (hr : runAux G q liks = .ok rest) :
    runAux G cur (lik :: liks) = .ok (q :: rest) := by
  simp only [runAux, hu, hr]

theorem run_cons (prior G p0 : List ℚ) (h0 : normalize prior G = .ok p0)
    (l : List ℚ) (ls : List (List ℚ)) :
    run prior (l :: ls) G = runAux G p0 (l :: ls) := by
  rw [run, h0]

theorem update_map_div (S L G : List ℚ) (c : ℚ) (hc : 0 < c)
    (hlen1 : S.length = L.length) (hlen2 : S.length = G.length)
    (hpos : 0 < trapezoid (List.zipWith (· * ·) S L) G) :
    update (S.map (fun v => v / c)) L G =
      .ok ((List.zipWith (· * ·) S L).map
        (fun v => v / trapezoid (List.zipWith (· * ·) S L) G)) := by
  have hlen1m : (S.map (fun v => v / c)).length = L.length := by
    rw [List.length_map]; exact hlen1
  have hlen2m : (S.map (fun v => v / c)).length = G.length := by
    rw [List.length_map]; exact hlen2
  rw [update, if_pos ⟨hlen1m, hlen2m⟩, zipWith_mul_map_div_left, normalize,
    trapezoid_map_div, if_neg (not_le.mpr (div_pos hpos hc)), map_div_div]
  have hcI : c * (trapezoid (List.zipWith (· * ·) S L) G / c)
      = trapezoid (List.zipWith (· * ·) S L) G := by
    rw [← mul_div_assoc]
    exact mul_div_cancel_left₀ _ (ne_of_gt hc)
  rw [hcI]

theorem run_two (prior L1 L2 G : List ℚ)
    (hl1 : prior.length = L1.length) (hl2 : prior.length = L2.length)
    (hg : prior.length = G.length)
    (h0 : 0 < trapezoid prior G)
    (h1 : 0 < trapezoid (List.zipWith (· * ·) prior L1) G)
    (h12 : 0 < trapezoid (List.zipWith (· * ·) (List.zipWith (· * ·) prior L1) L2) G) :
    run prior [L1, L2] G = .ok
      [(List.zipWith (· * ·) prior L1).map
         (fun v => v / trapezoid (List.zipWith (· * ·) prior L1) G),
       (List.zipWith (· * ·) (List.zipWith (· * ·) prior L1) L2).map
         (fun v => v / trapezoid
           (List.zipWith (· * ·) (List.zipWith (· * ·) prior L1) L2) G)] := by
  have hlenP1 : (List.zipWith (· * ·) prior L1).length = prior.length := by
    rw [List.length_zipWith, ← hl1, min_self]
  have hu1 := update_map_div prior L1 G (trapezoid prior G) h0 hl1 hg h1
  have hu2 := update_map_div (List.zipWith (· * ·) prior L1) L2 G
    (trapezoid (List.zipWith (· * ·) prior L1) G) h1
    (by rw [hlenP1]; exact hl2) (by rw [hlenP1]; exact hg) h12
  rw [run_cons prior G _ (normalize_ok prior G h0) L1 [L2]]
  exact runAux_cons G _ L1 [L2] _ _ hu1 (runAux_cons G _ L2 [] _ [] hu2 rfl)

/-- C4: under exact arithmetic the final posterior does not depend on the
order of the two likelihoods — `run prior [L1, L2] G` and
`run prior [L2, L1] G` have the same last element, and (exactly, not merely
in finite precision) that final posterior has trapezoidal integral 1. -/
theorem run_order_independent (prior L1 L2 G : List ℚ)
    (hl1 : prior.length = L1.length) (hl2 : prior.length = L2.length)
    (hg : prior.length = G.length)
    (h0 : 0 < trapezoid prior G)
    (h1 : 0 < trapezoid (List.zipWith (· * ·) prior L1) G)
    (h2 : 0 < trapezoid (List.zipWith (· * ·) prior L2) G)
    (h12 : 0 < trapezoid (List.zipWith (· * ·) (List.zipWith (· * ·) prior L1) L2) G) :
    ∃ ps qs pF,
      run prior [L1, L2] G = .ok ps ∧
      run prior [L2, L1] G = .ok qs ∧
      ps.getLast? = some pF ∧ qs.getLast? = some pF ∧
      trapezoid pF G = 1 := by
  have hcomm : List.zipWith (· * ·) (List.zipWith (· * ·) prior L2) L1
      = List.zipWith (· * ·) (List.zipWith (· * ·) prior L1) L2 :=
    zipWith_mul_right_comm prior L2 L1
  have h21 : 0 < trapezoid (List.zipWith (· * ·) (List.zipWith (· * ·) prior L2) L1) G := by
    rw [hcomm]; exact h12
  refine ⟨_, _,
    (List.zipWith (· * ·) (List.zipWith (· * ·) prior L1) L2).map
      (fun v => v / trapezoid
        (List.zipWith (· * ·) (List.zipWith (· * ·) prior L1) L2) G),
    run_two prior L1 L2 G hl1 hl2 hg h0 h1 h12,
    run_two prior L2 L1 G hl2 hl1 hg h0 h2 h21, rfl, ?_, ?_⟩
  · rw [hcomm]
    rfl
  · exact trapezoid_normalized _ G h12

theorem run_order_independent_witness :
    ∃ ps qs pF,
      run [1, 1] [[1, 1], [2, 2]] [0, 1] = .ok ps ∧
      run [1, 1] [[2, 2], [1, 1]] [0, 1] = .ok qs ∧
      ps.getLast? = some pF ∧ qs.getLast? = some pF ∧
      trapezoid pF [0, 1] = 1 :=
  run_order_independent [1, 1] [1, 1] [2, 2] [0, 1] rfl rfl rfl
    (by norm_num [trapezoid]) (by norm_num [trapezoid, List.zipWith])
    (by norm_num [trapezoid, List.zipWith]) (by norm_num [trapezoid, List.zipWith])

/-- C6: for a normalized density on an increasing grid, a threshold below the
grid's minimum gives tail probability 1 and a threshold above the grid's
maximum gives 0; in both cases the non-fatal out-of-range warning is
signalled and a value is still returned. -/
theorem tailProbability_clamps (D G : List ℚ) (t : ℚ) (hne : G ≠ [])
    (hsort : List.Chain' (· < ·) G) (hnorm : trapezoid D G = 1) :
    (t < gridMin G → tailProbability D G t = (1, true)) ∧
    (gridMax G < t → tailProbability D G t = (0, true)) := by
  constructor
  · intro ht
    have hz : searchsorted G t = 0 := by
      cases G with
      | nil => exact absurd rfl hne
      | cons g gs =>
        have hle : t ≤ g := le_of_lt (by simpa [gridMin] using ht)
        rw [searchsorted, if_pos hle]
    rw [tailProbability, tailProbAbove, hz]
    simp only [List.drop_zero]
    rw [hnorm, decide_eq_true ht, Bool.true_or]
  · intro ht
    have hlen : searchsorted G t = G.length := by
      refine searchsorted_eq_length G t (fun a ha => ?_)
      exact mem_lt_of_getLastD_lt G 0 t hsort (by simpa [gridMax] using ht) a ha
    rw [tailProbability, tailProbAbove, hlen, List.drop_length,
      trapezoid_nil_right, decide_eq_true ht, Bool.or_true]

theorem tailProbability_clamps_witness :
    tailProbability [1, 1] [0, 1] (-1) = (1, true) ∧
    tailProbability [1, 1] [0, 1] 2 = (0, true) := by
  have hlo := tailProbability_clamps [1, 1] [0, 1] (-1) (by simp)
    (by norm_num [List.chain'_cons, List.chain'_singleton]) (by norm_num [trapezoid])
  have hhi := tailProbability_clamps [1, 1] [0, 1] 2 (by simp)
    (by norm_num [List.chain'_cons, List.chain'_singleton]) (by norm_num [trapezoid])
  exact ⟨hlo.1 (by norm_num [gridMin]), hhi.2 (by norm_num [gridMax, List.getLastD])⟩

theorem searchsorted_cumulative_zero (D G : List ℚ)
    (hD : ∀ d ∈ D, 0 ≤ d) (hG : 0 ≤ avgDiff G) :
    searchsorted (cumulative D G) 0 = 0 := by
  cases D with
  | nil => rfl
  | cons d ds =>
    have hd : (0 : ℚ) ≤ (0 + d) * avgDiff G :=
      mul_nonneg (by simpa using hD d (List.mem_cons_self _ _)) hG
    rw [cumulative, cumsum, cumsumFrom, List.map_cons, searchsorted, if_pos hd]

/-- C7 counterexample: on grid [0, 1, 2, 3] the density [0, 1, 0, 0] is
non-negative and normalized (trapezoidal integral 1), yet
`credibleInterval` with lowerTail 0 and upperTail 1 returns the pair
(0, 1): the upper endpoint is the first grid point at which the scaled
cumulative sum reaches 1, not the grid's maximum 3. -/
theorem credibleInterval_full_range_counterexample :
    (∀ d ∈ [(0 : ℚ), 1, 0, 0], 0 ≤ d) ∧
    trapezoid [0, 1, 0, 0] [0, 1, 2, 3] = 1 ∧
    List.Chain' (· < ·) [(0 : ℚ), 1, 2, 3] ∧
    credibleInterval [0, 1, 0, 0] [0, 1, 2, 3] 0 1 = .ok (some 0, some 1) ∧
    gridMax [(0 : ℚ), 1, 2, 3] = 3 ∧ (1 : ℚ) ≠ 3 := by
  refine ⟨by norm_num, by norm_num [trapezoid],
    by norm_num [List.chain'_cons, List.chain'_singleton], ?_,
    by norm_num [gridMax, List.getLastD], by norm_num⟩
  norm_num [credibleInterval, cumulative, cumsum, cumsumFrom, avgDiff,
    searchsorted, List.get?]

/-- C7 (amended): for a non-negative density on a grid with non-negative
average spacing, `credibleInterval(D, G, 0, 1)` returns the grid's first
point (its minimum) as lower endpoint, and as upper endpoint the grid point
at the first index where the scaled cumulative sum reaches 1 — which need
not be the grid's maximum. -/
theorem credibleInterval_zero_one (D G : List ℚ)
    (hD : ∀ d ∈ D, 0 ≤ d) (hG : 0 ≤ avgDiff G) :
    credibleInterval D G 0 1 =
      .ok (G.head?, G.get? (searchsorted (cumulative D G) 1)) := by
  rw [credibleInterval, if_pos ⟨le_refl (0 : ℚ), le_refl (1 : ℚ), zero_lt_one⟩,
    searchsorted_cumulative_zero D G hD hG, List.get?_zero]

theorem credibleInterval_zero_one_witness :
    credibleInterval [1, 1] [0, 1] 0 1 = .ok (some 0, some 0) := by
  have h := credibleInterval_zero_one [1, 1] [0, 1] (by norm_num)
    (by norm_num [avgDiff])
  rw [h]
  norm_num [cumulative, cumsum, cumsumFrom, avgDiff, searchsorted, List.get?]

/-- C9: when every entry of the scaled cumulative sum stays below the
requested quantile level, the first-crossing index equals the grid length
and the grid lookup returns no grid point (numpy raises IndexError), rather
than returning the last grid point. -/
theorem quantile_lookup_overflow (D G : List ℚ) (q : ℚ)
    (hlen : D.length = G.length)
    (hall : ∀ c ∈ cumulative D G, c < q) :
    searchsorted (cumulative D G) q = G.length ∧
    G.get? (searchsorted (cumulative D G) q) = none := by
  have h1 : searchsorted (cumulative D G) q = G.length := by
    rw [searchsorted_eq_length (cumulative D G) q hall, cumulative_length, hlen]
  exact ⟨h1, by rw [h1]; exact List.get?_eq_none.mpr (le_refl _)⟩

theorem quantile_lookup_overflow_witness :
    searchsorted (cumulative [0, 0, 0, 1/49, 0] [0, 1, 2, 3, 100]) (39/40) =
      List.length [(0 : ℚ), 1, 2, 3, 100] ∧
    List.get? [(0 : ℚ), 1, 2, 3, 100]
      (searchsorted (cumulative [0, 0, 0, 1/49, 0] [0, 1, 2, 3, 100]) (39/40)) =
      none :=
  quantile_lookup_overflow [0, 0, 0, 1/49, 0] [0, 1, 2, 3, 100] (39/40) rfl
    (by norm_num [cumulative, cumsum, cumsumFrom, avgDiff])

/-- C10: `tailProbAbove` integrates only from the first grid point at or
above the threshold: for a threshold strictly between consecutive grid
points `G[k]` and `G[k+1]`, the result is the trapezoidal integral over the
sub-grid starting at index `k+1`, identical to the result for threshold
`G[k+1]` — the mass between the threshold and that first grid point is
excluded. -/
theorem tailProbAbove_first_point_at_or_above (D G : List ℚ) (t : ℚ) (k : ℕ)
    (hk1 : k + 1 < G.length) (hsort : List.Chain' (· < ·) G)
    (hlo : G[k] < t) (hhi : t < G[k + 1]) :
    tailProbAbove D G t = trapezoid (D.drop (k + 1)) (G.drop (k + 1)) ∧
    tailProbAbove D G t = tailProbAbove D G G[k + 1] := by
  have hp : List.Pairwise (· < ·) G := List.chain'_iff_pairwise.mp hsort
  have hmono : ∀ i j (hi : i < G.length) (hj : j < G.length), i < j → G[i] < G[j] := by
    intro i j hi hj hij
    exact List.pairwise_iff_getElem.mp hp i j hi hj hij
  have hs_t : searchsorted G t = k + 1 := by
    refine searchsorted_eq_index G t (k + 1) hk1 (fun j hj hjl => ?_) (le_of_lt hhi)
    rcases Nat.lt_succ_iff_lt_or_eq.mp hj with hjk | rfl
    · exact lt_trans (hmono j k hjl (by omega) hjk) hlo
    · exact hlo
  have hs_g : searchsorted G G[k + 1] = k + 1 := by
    refine searchsorted_eq_index G G[k + 1] (k + 1) hk1 (fun j hj hjl => ?_) (le_refl _)
    exact hmono j (k + 1) hjl hk1 hj
  constructor
  · rw [tailProbAbove, hs_t]
  · rw [tailProbAbove, tailProbAbove, hs_t, hs_g]

theorem tailProbAbove_first_point_witness :
    tailProbAbove [1, 1, 1, 1] [0, 1, 2, 3] (3/2) = 1 ∧
    tailProbAbove [1, 1, 1, 1] [0, 1, 2, 3] 2 = 1 := by
  have h := tailProbAbove_first_point_at_or_above [1, 1, 1, 1] [0, 1, 2, 3] (3/2) 1
    (by norm_num) (by norm_num [List.chain'_cons, List.chain'_singleton])
    (by norm_num) (by norm_num)
  constructor
  · rw [h.1]
    norm_num [trapezoid]
  · have h2 := h.2
    norm_num at h2
    rw [← h2, h.1]
    norm_num [trapezoid]

end SeqBayes
